import Mathlib

/-!
Verification of `pain_journal_update.py`.

The Python program is embedded shallowly: every pure computation of the
source (keyword filtering, publication-type normalization, abstract and
author extraction, the main collection loop, and the HTML renderer's
grouping/indexing logic) is translated into an executable Lean definition.
Network calls, the language-model service, and SMTP are environments: their
responses appear as explicit inputs (fields of `Entry`, `PubMedRecord`).

Python string semantics used by the source are modelled explicitly:
`py_truthy` is Python truthiness for optional strings, `lower` is `str.lower`
(ASCII, as all the program's keywords are ASCII), `contains_sub` is the
`in` substring test, `join_sp` is `" ".join`, `nat_str` is decimal `str(n)`
formatting, and `str_lt`/`str_le` are the code-point comparison used by
Python's `sorted`.
-/

namespace PJU

/-- Python truthiness of an optional string: `None` and `""` are falsy. -/
def py_truthy : Option String → Bool
  | none => false
  | some s => !(s == "")

/-- Python `str.lower` (ASCII case folding, character by character). -/
def lower (s : String) : String := ⟨s.data.map Char.toLower⟩

/-- Substring test on character lists: `ns` occurs contiguously in the second list. -/
def list_contains_sub : List Char → List Char → Bool
  | ns, [] => ns.isEmpty
  | ns, c :: cs => ns.isPrefixOf (c :: cs) || list_contains_sub ns cs

/-- Python's `needle in hay` substring test. -/
def contains_sub (needle hay : String) : Bool :=
  list_contains_sub needle.data hay.data

/-- Python's `" ".join`. -/
def join_sp : List String → String
  | [] => ""
  | [s] => s
  | s :: t :: rest => s ++ " " ++ join_sp (t :: rest)

/-- Strict code-point lexicographic comparison of character lists. -/
def chars_lt : List Char → List Char → Bool
  | [], [] => false
  | [], _ :: _ => true
  | _ :: _, [] => false
  | a :: as, b :: bs => if a = b then chars_lt as bs else decide (a < b)

/-- Python's `<` on strings (code-point lexicographic). -/
def str_lt (a b : String) : Bool := chars_lt a.data b.data

/-- Python's `<=` on strings. -/
def str_le (a b : String) : Bool := str_lt a b || a == b

/-- Decimal digit to character. -/
def digit_char : Nat → Char
  | 0 => '0'
  | 1 => '1'
  | 2 => '2'
  | 3 => '3'
  | 4 => '4'
  | 5 => '5'
  | 6 => '6'
  | 7 => '7'
  | 8 => '8'
  | 9 => '9'
  | _ => '*'

/-- Little-endian decimal digits of `n`, with structural fuel so that the
kernel can evaluate it. `dec_digits fuel n = Nat.digits 10 n` whenever
`n ≤ fuel` (proved below). -/
def dec_digits : Nat → Nat → List Nat
  | _, 0 => []
  | 0, _ + 1 => []
  | fuel + 1, n + 1 => ((n + 1) % 10) :: dec_digits fuel ((n + 1) / 10)

/-- Python's `str(n)` for a natural number: decimal digits, most significant first. -/
def nat_str (n : Nat) : String :=
  if n = 0 then "0" else ⟨((dec_digits n n).map digit_char).reverse⟩

/-- The `SPINE_KEYWORDS` list of the source: inclusion keywords of the relevance filter. -/
def SPINE_KEYWORDS : List String :=
  ["spine", "spinal", "cervical", "thoracic", "lumbar", "sacral", "vertebr",
   "disc", "disk", "scoliosis", "kyphosis", "lordosis", "myelopathy",
   "radiculopathy", "lumbar stenosis", "cervical stenosis", "fusion", "laminectomy", "discectomy",
   "foraminotomy", "decompression", "interbody", "pedicle", "screw",
   "cage", "rod", "plate", "cauda equina", "thecal sac"]

/-- The `EXCLUSION_KEYWORDS` list of the source: exclusion keywords of the relevance filter. -/
def EXCLUSION_KEYWORDS : List String :=
  ["cerebrospinal",
   "deep brain stimulation", "dbs", "brain stimulation",
   "subthalamic", "subthalamic nucleus",
   "cerebral", "cerebrum", "cerebellum",
   "transcranial", "intracranial",
   "pneumocephalus", "cranial", "craniotomy",
   "electroencephalogram", "eeg",
   "brain", "brain surgery",
   "neurosurgery AND NOT spine", "neurosurgical AND NOT spine",
   "parkinson", "alzheimer", "epilepsy", "seizure",
   "glioma", "meningioma", "brain tumor"]

/-- The `PUBLICATION_TYPES` dictionary of the source, in insertion order
(label, display color). -/
def PUBLICATION_TYPES : List (String × String) :=
  [("Case Report", "#98fb98"),
   ("Case Series", "#8fbc8f"),
   ("Retrospective Case Control", "#b0c4de"),
   ("Retrospective Cohort", "#87cefa"),
   ("Cross-sectional Study", "#add8e6"),
   ("Prospective Cohort", "#e0b0ff"),
   ("Prospective Study", "#dda0dd"),
   ("Randomized Clinical Trial", "#ffa07a"),
   ("Non-randomized Trial", "#f4a460"),
   ("Systematic Review", "#ffb6c1"),
   ("Meta-Analysis", "#ffd700"),
   ("Narrative Review", "#eee8aa"),
   ("Clinical Practice Guideline", "#98fb98"),
   ("Technical Note", "#d3d3d3"),
   ("Biomechanical Study", "#afeeee"),
   ("Cadaveric Study", "#bc8f8f"),
   ("Animal Study", "#f0e68c"),
   ("Basic Science Research", "#7fffd4"),
   ("Quality Improvement", "#ff7f50"),
   ("Cost-effectiveness Analysis", "#da70d6"),
   ("Other", "#f5f5f5")]

/-- The enumeration (keys of `PUBLICATION_TYPES`) in order. -/
def pub_type_labels : List String := PUBLICATION_TYPES.map Prod.fst

/-- The badge color lookup with default (`PUBLICATION_TYPES.get` with the
color of the Other label as fallback): White Smoke for unknown labels. -/
def pub_type_color (t : String) : String :=
  match PUBLICATION_TYPES.lookup t with
  | some c => c
  | none => "#f5f5f5"

/-- The text searched by `is_spine_related`: lower-cased title, then a space
and the lower-cased description when a non-empty description is given. -/
def search_text (title description : Option String) : String :=
  lower (title.getD "") ++
    (match description with
     | some d => if d == "" then "" else " " ++ lower d
     | none => "")

/-- The filter `is_spine_related(title, description)` of the source: `False` for a
falsy title; otherwise at least one inclusion keyword and no exclusion
keyword must occur in the lower-cased search text. -/
def is_spine_related (title description : Option String) : Bool :=
  if !(py_truthy title) then false
  else
    let st := search_text title description
    if !(SPINE_KEYWORDS.any fun kw => contains_sub (lower kw) st) then false
    else if EXCLUSION_KEYWORDS.any fun kw => contains_sub (lower kw) st then false
    else true

/-- The normalization loop of `determine_publication_type`: first label of the
enumeration whose lower-cased text occurs in the lower-cased raw response,
else `"Other"`. -/
def normalize_loop : List String → String → String
  | [], _ => "Other"
  | t :: rest, raw => if contains_sub (lower t) (lower raw) then t else normalize_loop rest raw

/-- The normalization of `determine_publication_type` applied to the raw model response (the
language-model call itself is environment; its reply is the argument). -/
def determine_publication_type (raw : String) : String :=
  normalize_loop pub_type_labels raw

/-- One `<Author>` element of the fetched record: optional `LastName`,
`ForeName` and `Initials` texts (`none` = element absent or without text). -/
structure AuthorElem where
  lastName : Option String
  foreName : Option String
  initials : Option String
deriving DecidableEq

/-- The parsed `efetch` record: the texts of the `AbstractText` nodes and the
`Author` elements. -/
structure PubMedRecord where
  abstractSections : List (Option String)
  authors : List AuthorElem
deriving DecidableEq

/-- Abstract extraction of `get_abstract_and_authors`: `None` when there are
no sections or every section text is falsy, else the space-join of the
truthy section texts. -/
def get_abstract (secs : List (Option String)) : Option String :=
  if secs.isEmpty || secs.all (fun s => !(py_truthy s)) then none
  else some (join_sp (secs.filterMap fun s => if py_truthy s then s else none))

/-- The author loop of `get_abstract_and_authors`: one `"LastName Initials"`
(or `"LastName"` when initials are falsy) per element with a truthy last
name. -/
def extract_authors : List AuthorElem → List String
  | [] => []
  | a :: rest =>
    match a.lastName with
    | some ln =>
      if ln == "" then extract_authors rest
      else (ln ++ (match a.initials with
                   | some ini => if ini == "" then "" else " " ++ ini
                   | none => "")) :: extract_authors rest
    | none => extract_authors rest

/-- Selection `first_author = authors[0] if authors else None` and
`last_author = authors[-1] if len(authors) > 1 else None`
(preceded by the `if not authors` early return). -/
def pick_first_last (authors : List String) : Option String × Option String :=
  if authors.isEmpty then (none, none)
  else (authors[0]?, if 1 < authors.length then authors[authors.length - 1]? else none)

/-- The fetcher `get_abstract_and_authors(pmid)` given the parsed record the fetch would
return: `(None, None, None)` for a falsy pmid or a missing abstract, else
the abstract with the first/last author selection. -/
def get_abstract_and_authors (pmid : Option String) (r : PubMedRecord) :
    Option String × Option String × Option String :=
  match pmid with
  | none => (none, none, none)
  | some _ =>
    match get_abstract r.abstractSections with
    | none => (none, none, none)
    | some ab =>
      let authors := extract_authors r.authors
      (some ab, (pick_first_last authors).1, (pick_first_last authors).2)

/-- An article as collected by `main`: the dictionary appended to `articles`. -/
structure Article where
  journal : String
  title : String
  pmid : String
  first_author : Option String
  last_author : Option String
deriving DecidableEq

/-- The author line of an article card in `generate_html`:
`"Authors: first ... last"` when both are truthy and differ, `"Author: first"`
when only the first is truthy, nothing otherwise (the `.get(...,'')`
defaults make `None` and `""` coincide). -/
def author_info (first_author last_author : Option String) : String :=
  let fa := first_author.getD ""
  let la := last_author.getD ""
  if fa ≠ "" ∧ la ≠ "" ∧ fa ≠ la then
    "<p><b>Authors:</b> " ++ fa ++ " ... " ++ la ++ "</p>"
  else if fa ≠ "" then "<p><b>Author:</b> " ++ fa ++ "</p>"
  else ""

/-- The `journal_groups` dictionary of `generate_html`: the value at key `j`
is the list of `(original index, article)` pairs with that journal, in
original order. -/
def journal_groups (arts : List Article) (j : String) : List (Nat × Article) :=
  arts.enum.filter fun p => p.2.journal == j

/-- The keys of `journal_groups`: the distinct journal names occurring in the
input (order irrelevant, they are sorted next). -/
def journal_keys (arts : List Article) : List String :=
  (arts.map Article.journal).dedup

/-- Sorting `sorted_journals = sorted(journal_groups.keys())`: the distinct journals
in Python's code-point lexicographic order. -/
def sorted_journals (arts : List Article) : List String :=
  List.insertionSort (fun a b => str_le a b = true) (journal_keys arts)

/-- The order in which `generate_html` walks the articles: journal groups in
sorted journal order, original order inside a group. -/
def render_order (arts : List Article) : List (Nat × Article) :=
  ((sorted_journals arts).map fun j => journal_groups arts j).flatten

/-- The index-assignment loop of `generate_html`: pairs each original index
with the running `current_index` counter, in walk order. -/
def assign_indices : Nat → List (Nat × Article) → List (Nat × Nat)
  | _, [] => []
  | n, p :: rest => (p.1, n) :: assign_indices (n + 1) rest

/-- The `article_index_map` dictionary: original index to the dense index
assigned by the counter loop (as an association list; the original indices
are distinct, so lookup agrees with the Python dictionary). -/
def article_index_map (arts : List Article) : List (Nat × Nat) :=
  assign_indices 0 (render_order arts)

/-- Lookup `article_index_map[orig_idx]` (`new_idx` in the source). -/
def new_index (arts : List Article) (orig : Nat) : Option Nat :=
  (article_index_map arts).lookup orig

/-- The anchor string, in the source built by decimal formatting of the
1-based display index after the word article. -/
def anchor_name (arts : List Article) (orig : Nat) : String :=
  "article" ++ nat_str ((new_index arts orig).getD 0 + 1)

/-- The targets of the links emitted by the table-of-contents loop (the
`href="#article{N}"` of each TOC row), in emission order; empty journal
groups are skipped as in the source. -/
def toc_link_targets (arts : List Article) : List String :=
  ((sorted_journals arts).map fun j =>
    if journal_groups arts j = [] then []
    else (journal_groups arts j).map fun p => anchor_name arts p.1).flatten

/-- The `name`/`id` values of the `<a name="article{N}">` anchors emitted by
the body loop, one per article card, in emission order. -/
def body_anchor_names (arts : List Article) : List String :=
  ((sorted_journals arts).map fun j =>
    if journal_groups arts j = [] then []
    else (journal_groups arts j).map fun p => anchor_name arts p.1).flatten

/-- One feed entry of the main loop together with the environment's responses
for it: `pmid` is what `get_pmid` returned, `record` is the parsed `efetch`
payload, `class_response` the classifier model's raw reply and `summary_out`
the (post-processed) summarizer output. -/
structure Entry where
  journal : String
  title : String
  pmid : Option String
  record : PubMedRecord
  class_response : String
  summary_out : String

/-- The three parallel collections built by `main`. -/
structure RunState where
  articles : List Article
  summaries_and_contexts : List String
  publication_types : List String
deriving DecidableEq

/-- One iteration of the main loop: skip when there is no pmid or no truthy
abstract, otherwise append the publication type, the article and the summary
to their respective collections. -/
def step (st : RunState) (e : Entry) : RunState :=
  match e.pmid with
  | none => st
  | some p =>
    match get_abstract_and_authors (some p) e.record with
    | (none, _, _) => st
    | (some ab, fa, la) =>
      if ab == "" then st
      else
        { articles := st.articles ++
            [{ journal := e.journal, title := e.title, pmid := p,
               first_author := fa, last_author := la }],
          summaries_and_contexts := st.summaries_and_contexts ++ [e.summary_out],
          publication_types := st.publication_types ++
            [determine_publication_type e.class_response] }

/-- The whole main loop, starting from the three empty collections. -/
def run_all (es : List Entry) : RunState :=
  es.foldl step ⟨[], [], []⟩

/-- The send decision at the end of `main`: `none` (only a console message)
when no article was collected, otherwise the subject line and the state the
digest is rendered from. -/
def main_send (es : List Entry) : Option (String × RunState) :=
  let st := run_all es
  if st.articles.isEmpty then none
  else some ("Monthly Spine Journal Update", st)

/-- Spec-side author composition (§4.4 of the spec): `"LastName Initials"`
when the initials exist (are truthy), else `"LastName"`; no name at all when
the last name is missing or empty. Compared against `extract_authors`. -/
def author_name_spec (a : AuthorElem) : Option String :=
  match a.lastName with
  | none => none
  | some ln =>
    if ln == "" then none
    else some (match a.initials with
               | some ini => if ini == "" then ln else ln ++ " " ++ ini
               | none => ln)

/-- Spec-side rendering order on enumerated articles: `q` comes before `p`
when `q`'s journal is alphabetically smaller, or the journals are equal and
`q` was fetched earlier. The display index of `p` is the number of articles
`q` with `before_in_render q p`, plus one. -/
def before_in_render (q p : Nat × Article) : Prop :=
  str_lt q.2.journal p.2.journal = true ∨
    (q.2.journal = p.2.journal ∧ q.1 < p.1)

instance : DecidableRel before_in_render := fun q p => by
  unfold before_in_render
  infer_instance

/-- Spec-side combined main loop (§3 of the spec suggests a single combined
record): one `(article, publication type, summary)` triple per retained
entry. Compared with the three parallel collections of `step`. -/
def step_combined (acc : List (Article × String × String)) (e : Entry) :
    List (Article × String × String) :=
  match e.pmid with
  | none => acc
  | some p =>
    match get_abstract_and_authors (some p) e.record with
    | (none, _, _) => acc
    | (some ab, fa, la) =>
      if ab == "" then acc
      else acc ++
        [({ journal := e.journal, title := e.title, pmid := p,
            first_author := fa, last_author := la },
          determine_publication_type e.class_response, e.summary_out)]

/-- The combined main loop over a whole entry list. -/
def combined_run (es : List Entry) : List (Article × String × String) :=
  es.foldl step_combined []

/-! ### Properties of the string primitives -/

theorem list_contains_sub_iff (ns : List Char) :
    ∀ hs : List Char, list_contains_sub ns hs = true ↔ ns <:+: hs := by
  intro hs
  induction hs with
  | nil =>
    simp [list_contains_sub, List.isEmpty_iff, List.infix_nil]
  | cons c cs ih =>
    simp only [list_contains_sub, Bool.or_eq_true, ih, List.infix_cons_iff]
    exact or_congr_left List.isPrefixOf_iff_prefix

theorem chars_lt_irrefl (l : List Char) : chars_lt l l = false := by
  induction l with
  | nil => rfl
  | cons a t ih => simpa [chars_lt] using ih

theorem chars_lt_asymm :
    ∀ as bs : List Char, chars_lt as bs = true → chars_lt bs as = false := by
  intro as
  induction as with
  | nil => intro bs h; cases bs <;> rfl
  | cons a as ih =>
    intro bs h
    cases bs with
    | nil => simp [chars_lt] at h
    | cons b bs =>
      by_cases hab : a = b
      · subst hab
        simp only [chars_lt, if_pos rfl] at h ⊢
        exact ih bs h
      · have hba : ¬b = a := fun e => hab e.symm
        simp only [chars_lt, if_neg hab, decide_eq_true_eq] at h
        simp only [chars_lt, if_neg hba, decide_eq_false_iff_not]
        exact lt_asymm h

theorem chars_lt_trans :
    ∀ as bs cs : List Char, chars_lt as bs = true → chars_lt bs cs = true →
      chars_lt as cs = true := by
  intro as
  induction as with
  | nil =>
    intro bs cs h₁ h₂
    cases bs with
    | nil => exact h₂
    | cons b bs =>
      cases cs with
      | nil => simp [chars_lt] at h₂
      | cons c cs => rfl
  | cons a as ih =>
    intro bs cs h₁ h₂
    cases bs with
    | nil => simp [chars_lt] at h₁
    | cons b bs =>
      cases cs with
      | nil => simp [chars_lt] at h₂
      | cons c cs =>
        by_cases hab : a = b <;> by_cases hbc : b = c
        · subst hab; subst hbc
          simp only [chars_lt, if_pos rfl] at h₁ h₂ ⊢
          exact ih bs cs h₁ h₂
        · subst hab
          simp only [chars_lt, if_pos rfl, if_neg hbc] at h₁ h₂ ⊢
          simp [h₂]
        · subst hbc
          simp only [chars_lt, if_neg hab, if_pos rfl] at h₁ ⊢
          exact h₁
        · simp only [chars_lt, if_neg hab, if_neg hbc, decide_eq_true_eq] at h₁ h₂
          have hac : a < c := lt_trans h₁ h₂
          have : ¬a = c := fun e => absurd (e ▸ h₁) (lt_asymm h₂)
          simp [chars_lt, this, hac]

theorem chars_lt_total :
    ∀ as bs : List Char, chars_lt as bs = true ∨ as = bs ∨ chars_lt bs as = true := by
  intro as
  induction as with
  | nil =>
    intro bs
    cases bs with
    | nil => exact Or.inr (Or.inl rfl)
    | cons b bs => exact Or.inl rfl
  | cons a as ih =>
    intro bs
    cases bs with
    | nil => exact Or.inr (Or.inr rfl)
    | cons b bs =>
      by_cases hab : a = b
      · subst hab
        rcases ih bs with h | h | h
        · exact Or.inl (by simpa [chars_lt] using h)
        · exact Or.inr (Or.inl (by rw [h]))
        · exact Or.inr (Or.inr (by simpa [chars_lt] using h))
      · have hba : ¬b = a := fun e => hab e.symm
        rcases lt_trichotomy a b with h | h | h
        · exact Or.inl (by simp [chars_lt, hab, h])
        · exact absurd h hab
        · exact Or.inr (Or.inr (by simp [chars_lt, hba, h]))

theorem str_lt_irrefl (a : String) : str_lt a a = false :=
  chars_lt_irrefl a.data

theorem str_lt_asymm {a b : String} (h : str_lt a b = true) : str_lt b a = false :=
  chars_lt_asymm a.data b.data h

theorem str_lt_trans {a b c : String} (h₁ : str_lt a b = true)
    (h₂ : str_lt b c = true) : str_lt a c = true :=
  chars_lt_trans a.data b.data c.data h₁ h₂

theorem str_lt_ne {a b : String} (h : str_lt a b = true) : a ≠ b := by
  intro e
  subst e
  rw [str_lt_irrefl] at h
  exact Bool.false_ne_true h

theorem str_le_of_lt {a b : String} (h : str_lt a b = true) : str_le a b = true := by
  simp [str_le, h]

theorem str_lt_of_le_of_ne {a b : String} (h : str_le a b = true) (hne : a ≠ b) :
    str_lt a b = true := by
  rcases Bool.or_eq_true_iff.mp h with h' | h'
  · exact h'
  · exact absurd (by simpa using h') hne

instance : IsTrans String (fun a b => str_le a b = true) := by
  constructor
  intro a b c h₁ h₂
  rcases Bool.or_eq_true_iff.mp h₁ with h₁ | h₁ <;>
    rcases Bool.or_eq_true_iff.mp h₂ with h₂ | h₂
  · exact str_le_of_lt (str_lt_trans h₁ h₂)
  · obtain rfl : b = c := by simpa using h₂
    exact str_le_of_lt h₁
  · obtain rfl : a = b := by simpa using h₁
    exact str_le_of_lt h₂
  · obtain rfl : a = b := by simpa using h₁
    simp [str_le, h₂]

instance : IsTotal String (fun a b => str_le a b = true) := by
  constructor
  intro a b
  rcases chars_lt_total a.data b.data with h | h | h
  · exact Or.inl (str_le_of_lt h)
  · refine Or.inl ?_
    have : a = b := congrArg String.mk h
    simp [str_le, this]
  · exact Or.inr (str_le_of_lt h)

/-! ### C10 and C4 -/

/-- C10: for every description, a missing or empty title makes
`is_spine_related` return `False` without examining the description, even
when the description alone would match inclusion keywords and no exclusion
keyword. -/
theorem C10_empty_title_short_circuit (d : Option String) :
    is_spine_related none d = false ∧ is_spine_related (some "") d = false :=
  ⟨rfl, rfl⟩

theorem normalize_loop_eq (labels : List String) (raw : String) :
    normalize_loop labels raw
      = ((labels.find? fun t => contains_sub (lower t) (lower raw)).getD "Other") := by
  induction labels with
  | nil => rfl
  | cons t rest ih =>
    by_cases h : contains_sub (lower t) (lower raw) = true
    · simp [normalize_loop, h]
    · simp only [Bool.not_eq_true] at h
      simp [normalize_loop, h, ih]

/-- C4: for every raw classifier response, normalization is a lower-cased
substring match of each label of the enumeration against the lower-cased raw
text, in enumeration order, returning the first matching label, and `"Other"`
when no label matches. -/
theorem C4_classifier_normalization (raw : String) :
    determine_publication_type raw
      = ((pub_type_labels.find? fun t => contains_sub (lower t) (lower raw)).getD "Other") :=
  normalize_loop_eq pub_type_labels raw

/-! ### C5: the relevance filter -/

theorem contains_sub_iff (needle hay : String) :
    contains_sub needle hay = true ↔ needle.data <:+: hay.data :=
  list_contains_sub_iff needle.data hay.data

/-- C5 (amended): for every NON-EMPTY title and optional description,
`is_spine_related` returns `True` iff at least one inclusion keyword occurs
in the lower-cased concatenation of title and description and no exclusion
keyword occurs in it (case-insensitive substring semantics). The original
claim quantified over every title; it fails for missing/empty titles, which
short-circuit to `False` (see the counterexample). -/
theorem C5_relevance_filter_iff (title description : Option String)
    (h : py_truthy title = true) :
    is_spine_related title description = true ↔
      ((∃ kw ∈ SPINE_KEYWORDS,
          (lower kw).data <:+: (search_text title description).data)
       ∧ ∀ kw ∈ EXCLUSION_KEYWORDS,
          ¬(lower kw).data <:+: (search_text title description).data) := by
  have key : is_spine_related title description
      = ((SPINE_KEYWORDS.any fun kw =>
            contains_sub (lower kw) (search_text title description))
         && !(EXCLUSION_KEYWORDS.any fun kw =>
            contains_sub (lower kw) (search_text title description))) := by
    rw [is_spine_related, h]
    cases hsa : (SPINE_KEYWORDS.any fun kw =>
        contains_sub (lower kw) (search_text title description)) <;>
      cases hex : (EXCLUSION_KEYWORDS.any fun kw =>
          contains_sub (lower kw) (search_text title description)) <;>
      simp [hsa, hex]
  rw [key]
  simp only [Bool.and_eq_true, Bool.not_eq_true', List.any_eq_true, List.any_eq_false,
    contains_sub_iff, Bool.not_eq_true]

/-- The original C5 is false at the empty title: the search text contains the
inclusion keyword `"lumbar"` and no exclusion keyword, yet the filter
returns `False`. -/
theorem C5_counterexample :
    ¬(is_spine_related (some "") (some "Lumbar Fusion Outcomes") = true ↔
      ((∃ kw ∈ SPINE_KEYWORDS,
          (lower kw).data <:+: (search_text (some "") (some "Lumbar Fusion Outcomes")).data)
       ∧ ∀ kw ∈ EXCLUSION_KEYWORDS,
          ¬(lower kw).data <:+: (search_text (some "") (some "Lumbar Fusion Outcomes")).data)) := by
  decide

/-- Witness for C5: the claim's own example, title `"Lumbar Fusion Outcomes"`. -/
theorem C5_relevance_filter_iff_witness :
    is_spine_related (some "Lumbar Fusion Outcomes") none = true := by
  rw [C5_relevance_filter_iff (some "Lumbar Fusion Outcomes") none (by decide)]
  decide

/-! ### C3 and C7: author extraction and the author line -/

theorem append_ne_empty_left {a : String} (b : String) (h : a ≠ "") : a ++ b ≠ "" := by
  intro e
  apply h
  have hd : (a ++ b).data = [] := congrArg String.data e
  rw [String.data_append] at hd
  exact congrArg String.mk (List.append_eq_nil.mp hd).1

theorem extract_authors_ne_empty :
    ∀ elems : List AuthorElem, ∀ n ∈ extract_authors elems, n ≠ "" := by
  intro elems
  induction elems with
  | nil => intro n hn; simp [extract_authors] at hn
  | cons a rest ih =>
    obtain ⟨lastN, foreN, initN⟩ := a
    intro n hn
    cases lastN with
    | none =>
      simp only [extract_authors] at hn
      exact ih n hn
    | some ln =>
      by_cases hln : (ln == "") = true
      · simp only [extract_authors, hln, if_true] at hn
        exact ih n hn
      · simp only [extract_authors, hln, if_false] at hn
        rcases List.mem_cons.mp hn with h | h
        · subst h
          exact append_ne_empty_left _ (by simpa using hln)
        · exact ih n h

theorem get_abstract_and_authors_some_eq (p : String) (r : PubMedRecord) :
    get_abstract_and_authors (some p) r
      = (match get_abstract r.abstractSections with
         | none => (none, none, none)
         | some ab => (some ab, (pick_first_last (extract_authors r.authors)).1,
             (pick_first_last (extract_authors r.authors)).2)) := rfl

theorem pick_first_last_eq (l : List String) :
    pick_first_last l = (l.head?, if 1 < l.length then l.getLast? else none) := by
  cases l with
  | nil => rfl
  | cons a t =>
    rw [pick_first_last, if_neg (by simp)]
    rw [List.head?_eq_getElem?, List.getLast?_eq_getElem?]

/-- C3: for every article rendered from an extracted author list, the author
line is `"Authors: X ... Y"` when first and last author are both present and
differ, `"Author: X"` when the list has exactly one author, and absent when
there are no authors. -/
theorem C3_author_line (elems : List AuthorElem) :
    (∀ x y, 1 < (extract_authors elems).length →
       (extract_authors elems).head? = some x →
       (extract_authors elems).getLast? = some y → x ≠ y →
       author_info (pick_first_last (extract_authors elems)).1
           (pick_first_last (extract_authors elems)).2
         = "<p><b>Authors:</b> " ++ x ++ " ... " ++ y ++ "</p>")
    ∧ (∀ x, (extract_authors elems).length = 1 →
       (extract_authors elems).head? = some x →
       author_info (pick_first_last (extract_authors elems)).1
           (pick_first_last (extract_authors elems)).2
         = "<p><b>Author:</b> " ++ x ++ "</p>")
    ∧ (extract_authors elems = [] →
       author_info (pick_first_last (extract_authors elems)).1
           (pick_first_last (extract_authors elems)).2 = "") := by
  rw [pick_first_last_eq]
  refine ⟨?_, ?_, ?_⟩
  · intro x y hlen hx hy hxy
    rw [if_pos hlen, hx, hy]
    have hxne : x ≠ "" :=
      extract_authors_ne_empty elems x (List.mem_of_mem_head? hx)
    have hyne : y ≠ "" :=
      extract_authors_ne_empty elems y (List.mem_of_mem_getLast? hy)
    rw [author_info]
    simp only [Option.getD_some]
    rw [if_pos ⟨hxne, hyne, hxy⟩]
  · intro x hlen hx
    rw [if_neg (by omega), hx]
    have hxne : x ≠ "" :=
      extract_authors_ne_empty elems x (List.mem_of_mem_head? hx)
    rw [author_info]
    simp only [Option.getD_some, Option.getD_none]
    rw [if_neg (by simp), if_pos hxne]
  · intro he
    rw [he]
    rfl

/-- Witness for C3: a two-author list, a one-author list and the empty list. -/
theorem C3_author_line_witness :
    author_info (some "Smith J") (some "Doe A") = "<p><b>Authors:</b> Smith J ... Doe A</p>"
    ∧ author_info (some "Smith J") none = "<p><b>Author:</b> Smith J</p>"
    ∧ author_info none none = "" := by
  have h2 := C3_author_line
    [⟨some "Smith", none, some "J"⟩, ⟨some "Doe", some "Jane", some "A"⟩]
  have h1 := C3_author_line [⟨some "Smith", none, some "J"⟩]
  have h0 := C3_author_line []
  refine ⟨?_, ?_, ?_⟩
  · have := h2.1 "Smith J" "Doe A" (by decide) (by decide) (by decide) (by decide)
    rwa [show pick_first_last (extract_authors
        [⟨some "Smith", none, some "J"⟩, ⟨some "Doe", some "Jane", some "A"⟩])
      = (some "Smith J", some "Doe A") from rfl] at this
  · have := h1.2.1 "Smith J" (by decide) (by decide)
    rwa [show pick_first_last (extract_authors [⟨some "Smith", none, some "J"⟩])
      = (some "Smith J", none) from rfl] at this
  · have := h0.2.2 rfl
    rwa [show pick_first_last (extract_authors ([] : List AuthorElem))
      = (none, none) from rfl] at this

/-- C7: for every record with a usable abstract, the fetcher returns the
extracted author list's first element as first author and its final element
as last author only when there are at least two authors; and the extracted
list composes each author as `"LastName Initials"` when initials exist, else
`"LastName"`, skipping elements without a last name. -/
theorem C7_author_selection (p : String) (r : PubMedRecord) (ab : String)
    (h : get_abstract r.abstractSections = some ab) :
    get_abstract_and_authors (some p) r
      = (some ab, (extract_authors r.authors).head?,
         if 1 < (extract_authors r.authors).length
         then (extract_authors r.authors).getLast? else none)
    ∧ ∀ elems : List AuthorElem, extract_authors elems = elems.filterMap author_name_spec := by
  constructor
  · rw [get_abstract_and_authors_some_eq, h]
    show (some ab, (pick_first_last (extract_authors r.authors)).1,
        (pick_first_last (extract_authors r.authors)).2) = _
    rw [pick_first_last_eq]
  · intro elems
    induction elems with
    | nil => rfl
    | cons a rest ih =>
      obtain ⟨lastN, foreN, initN⟩ := a
      cases lastN with
      | none =>
        simp only [extract_authors, author_name_spec, List.filterMap_cons]
        exact ih
      | some ln =>
        by_cases hln : (ln == "") = true
        · simp only [extract_authors, author_name_spec, List.filterMap_cons, hln, if_true]
          exact ih
        · cases initN with
          | none =>
            simp [extract_authors, author_name_spec, hln, ih]
          | some ini =>
            by_cases hini : (ini == "") = true
            · simp [extract_authors, author_name_spec, hln, hini, ih]
            · simp [extract_authors, author_name_spec, hln, hini, ih, String.append_assoc]

/-- Witness for C7: a record with abstract `"A"` and two authors, one with
initials, one without. -/
theorem C7_author_selection_witness :
    get_abstract_and_authors (some "1")
        ⟨[some "A"], [⟨some "Smith", none, some "J"⟩, ⟨some "Doe", some "Jane", none⟩]⟩
      = (some "A", some "Smith J", some "Doe") := by
  have h := C7_author_selection "1"
    ⟨[some "A"], [⟨some "Smith", none, some "J"⟩, ⟨some "Doe", some "Jane", none⟩]⟩
    "A" (by rfl)
  rw [h.1]
  rfl

/-! ### C6: missing abstracts are dropped -/

/-- C6: if every abstract sub-section of the fetched record is empty or
absent, the fetcher reports no abstract and no authors, and the main loop
leaves its collections unchanged for any entry carrying that record, so the
article never reaches the digest. -/
theorem C6_empty_abstract_skipped (p : Option String) (r : PubMedRecord)
    (h : ∀ s ∈ r.abstractSections, py_truthy s = false) :
    get_abstract_and_authors p r = (none, none, none)
    ∧ ∀ (st : RunState) (e : Entry), e.record = r → step st e = st := by
  have hab : get_abstract r.abstractSections = none := by
    rw [get_abstract, if_pos]
    apply Bool.or_eq_true_iff.mpr
    refine Or.inr (List.all_eq_true.mpr ?_)
    intro s hs
    simp [h s hs]
  constructor
  · cases p with
    | none => rfl
    | some q => rw [get_abstract_and_authors_some_eq, hab]
  · intro st e he
    obtain ⟨j, t, pm, rr, cr, su⟩ := e
    have hrr : rr = r := he
    subst hrr
    cases pm with
    | none => rfl
    | some q =>
      have hq : get_abstract_and_authors (some q) rr = (none, none, none) := by
        rw [get_abstract_and_authors_some_eq, hab]
      simp only [step, hq]

/-- Witness for C6: a record whose two sections are `None` and `""`. -/
theorem C6_empty_abstract_skipped_witness :
    get_abstract_and_authors (some "1") ⟨[none, some ""], []⟩ = (none, none, none)
    ∧ step ⟨[], [], []⟩ ⟨"J", "T", some "1", ⟨[none, some ""], []⟩, "re", "su"⟩ = ⟨[], [], []⟩ := by
  have h := C6_empty_abstract_skipped (some "1") ⟨[none, some ""], []⟩ (by decide)
  exact ⟨h.1, h.2 ⟨[], [], []⟩ ⟨"J", "T", some "1", ⟨[none, some ""], []⟩, "re", "su"⟩ rfl⟩

/-! ### C8 and C9: the main loop -/

theorem foldl_step_eq_combined (es : List Entry) :
    ∀ (st : RunState) (acc : List (Article × String × String)),
      st.articles = acc.map (fun t => t.1) →
      st.publication_types = acc.map (fun t => t.2.1) →
      st.summaries_and_contexts = acc.map (fun t => t.2.2) →
      (es.foldl step st).articles = (es.foldl step_combined acc).map (fun t => t.1)
      ∧ (es.foldl step st).publication_types
          = (es.foldl step_combined acc).map (fun t => t.2.1)
      ∧ (es.foldl step st).summaries_and_contexts
          = (es.foldl step_combined acc).map (fun t => t.2.2) := by
  induction es with
  | nil => intro st acc h₁ h₂ h₃; exact ⟨h₁, h₂, h₃⟩
  | cons e rest ih =>
    intro st acc h₁ h₂ h₃
    rw [List.foldl_cons, List.foldl_cons]
    obtain ⟨j, t, pm, rr, cr, su⟩ := e
    cases pm with
    | none => exact ih st acc h₁ h₂ h₃
    | some p =>
      rcases hg : get_abstract_and_authors (some p) rr with ⟨ab, fa, la⟩
      cases ab with
      | none =>
        have hs : step st ⟨j, t, some p, rr, cr, su⟩ = st := by
          simp only [step, hg]
        have hc : step_combined acc ⟨j, t, some p, rr, cr, su⟩ = acc := by
          simp only [step_combined, hg]
        rw [hs, hc]
        exact ih st acc h₁ h₂ h₃
      | some a =>
        by_cases ha : (a == "") = true
        · have hs : step st ⟨j, t, some p, rr, cr, su⟩ = st := by
            simp [step, hg, ha]
          have hc : step_combined acc ⟨j, t, some p, rr, cr, su⟩ = acc := by
            simp [step_combined, hg, ha]
          rw [hs, hc]
          exact ih st acc h₁ h₂ h₃
        · have hs : step st ⟨j, t, some p, rr, cr, su⟩
              = { articles := st.articles ++ [⟨j, t, p, fa, la⟩],
                  summaries_and_contexts := st.summaries_and_contexts ++ [su],
                  publication_types := st.publication_types
                    ++ [determine_publication_type cr] } := by
            simp [step, hg, ha]
          have hc : step_combined acc ⟨j, t, some p, rr, cr, su⟩
              = acc ++ [(⟨j, t, p, fa, la⟩, determine_publication_type cr, su)] := by
            simp [step_combined, hg, ha]
          rw [hs, hc]
          apply ih
          · simp [h₁]
          · simp [h₂]
          · simp [h₃]

/-- C8: the three collections built by the main loop stay aligned by
positional index: after processing any entry list they are the three
projections of one combined per-article list (hence have equal lengths, and
the elements at index `i` of each collection pertain to the same article).
Because the quantification is over every entry list, this holds after every
iteration of the loop. -/
theorem C8_parallel_collections_aligned (es : List Entry) :
    (run_all es).articles = (combined_run es).map (fun t => t.1)
    ∧ (run_all es).publication_types = (combined_run es).map (fun t => t.2.1)
    ∧ (run_all es).summaries_and_contexts = (combined_run es).map (fun t => t.2.2)
    ∧ (run_all es).articles.length = (run_all es).publication_types.length
    ∧ (run_all es).articles.length = (run_all es).summaries_and_contexts.length := by
  have h := foldl_step_eq_combined es ⟨[], [], []⟩ [] rfl rfl rfl
  refine ⟨h.1, h.2.1, h.2.2, ?_, ?_⟩
  · rw [show (run_all es).articles = (combined_run es).map (fun t => t.1) from h.1,
      show (run_all es).publication_types = (combined_run es).map (fun t => t.2.1) from h.2.1]
    simp
  · rw [show (run_all es).articles = (combined_run es).map (fun t => t.1) from h.1,
      show (run_all es).summaries_and_contexts
        = (combined_run es).map (fun t => t.2.2) from h.2.2]
    simp

/-- C9: the send call happens iff at least one article was collected; with
zero articles the run ends without any send. -/
theorem C9_no_send_without_articles (es : List Entry) :
    main_send es = none ↔ (run_all es).articles = [] := by
  rw [main_send]
  by_cases h : (run_all es).articles.isEmpty = true
  · simp only [h, if_true]
    simp [List.isEmpty_iff.mp h]
  · simp only [h, if_false]
    simp only [Bool.not_eq_true] at h
    constructor
    · intro hc; exact absurd hc (by simp)
    · intro hc
      rw [← List.isEmpty_iff] at hc
      exact absurd hc (by simp [h])

/-! ### Decimal rendering is injective -/

theorem dec_digits_eq : ∀ fuel n : Nat, n ≤ fuel → dec_digits fuel n = Nat.digits 10 n := by
  intro fuel
  induction fuel with
  | zero =>
    intro n h
    have : n = 0 := Nat.le_zero.mp h
    subst this
    rw [Nat.digits_zero]
    exact rfl
  | succ f ih =>
    intro n h
    match n with
    | 0 => rw [Nat.digits_zero]; exact rfl
    | m + 1 =>
      rw [dec_digits]
      have hdiv : (m + 1) / 10 < m + 1 := Nat.div_lt_self (Nat.succ_pos m) (by norm_num)
      rw [ih ((m + 1) / 10) (by omega)]
      rw [Nat.digits_def' (by norm_num : (1:Nat) < 10) (Nat.succ_pos m)]

theorem digit_char_inj :
    ∀ x < 10, ∀ y < 10, digit_char x = digit_char y → x = y := by decide

theorem map_digit_char_inj :
    ∀ l₁ l₂ : List Nat, (∀ x ∈ l₁, x < 10) → (∀ x ∈ l₂, x < 10) →
      l₁.map digit_char = l₂.map digit_char → l₁ = l₂ := by
  intro l₁
  induction l₁ with
  | nil =>
    intro l₂ _ _ h
    cases l₂ with
    | nil => rfl
    | cons b t => simp at h
  | cons a t₁ ih =>
    intro l₂ h₁ h₂ h
    cases l₂ with
    | nil => simp at h
    | cons b t₂ =>
      simp only [List.map_cons, List.cons.injEq] at h
      have hab : a = b :=
        digit_char_inj a (h₁ a (List.mem_cons_self a t₁)) b (h₂ b (List.mem_cons_self b t₂)) h.1
      have ht : t₁ = t₂ :=
        ih t₂ (fun x hx => h₁ x (List.mem_cons_of_mem a hx))
          (fun x hx => h₂ x (List.mem_cons_of_mem b hx)) h.2
      rw [hab, ht]

theorem digits10_inj {a b : Nat} (h : Nat.digits 10 a = Nat.digits 10 b) : a = b := by
  have ha := Nat.ofDigits_digits 10 a
  rw [h] at ha
  exact ha.symm.trans (Nat.ofDigits_digits 10 b)

theorem digits10_map_inj {a b : Nat}
    (h : (Nat.digits 10 a).map digit_char = (Nat.digits 10 b).map digit_char) : a = b :=
  digits10_inj (map_digit_char_inj _ _
    (fun x hx => Nat.digits_lt_base (by norm_num) hx)
    (fun x hx => Nat.digits_lt_base (by norm_num) hx) h)

theorem nat_str_ne_zero_case {b : Nat} (hb : b ≠ 0) : nat_str b ≠ "0" := by
  rw [nat_str, if_neg hb]
  intro h
  have hd : ((dec_digits b b).map digit_char).reverse = ['0'] := congrArg String.data h
  rw [dec_digits_eq b b le_rfl] at hd
  have hmap : (Nat.digits 10 b).map digit_char = ['0'] := by
    have := congrArg List.reverse hd
    simpa using this
  have : Nat.digits 10 b = [0] := by
    have h0 : ([0] : List Nat).map digit_char = ['0'] := rfl
    exact map_digit_char_inj _ [0]
      (fun x hx => Nat.digits_lt_base (by norm_num) hx)
      (by intro x hx; simp at hx; omega) (hmap.trans h0.symm)
  apply hb
  have hODb := Nat.ofDigits_digits 10 b
  rw [this] at hODb
  simpa [Nat.ofDigits] using hODb.symm

theorem nat_str_inj {a b : Nat} (h : nat_str a = nat_str b) : a = b := by
  by_cases ha : a = 0 <;> by_cases hb : b = 0
  · rw [ha, hb]
  · exfalso
    rw [nat_str, if_pos ha] at h
    exact nat_str_ne_zero_case hb h.symm
  · exfalso
    subst hb
    rw [show nat_str 0 = "0" from rfl] at h
    exact nat_str_ne_zero_case ha h
  · rw [nat_str, if_neg ha, nat_str, if_neg hb] at h
    have hd : ((dec_digits a a).map digit_char).reverse
        = ((dec_digits b b).map digit_char).reverse := congrArg String.data h
    rw [dec_digits_eq a a le_rfl, dec_digits_eq b b le_rfl] at hd
    exact digits10_map_inj (List.reverse_inj.mp hd)

/-! ### The rendering order -/

theorem before_irrefl (p : Nat × Article) : ¬before_in_render p p := by
  rintro (h | ⟨-, h⟩)
  · rw [str_lt_irrefl] at h
    exact Bool.false_ne_true h
  · exact lt_irrefl _ h

theorem before_asymm {p q : Nat × Article} (h : before_in_render p q) :
    ¬before_in_render q p := by
  rcases h with h | ⟨he, hlt⟩
  · rintro (h' | ⟨he', -⟩)
    · rw [str_lt_asymm h] at h'
      exact Bool.false_ne_true h'
    · rw [he'] at h
      rw [str_lt_irrefl] at h
      exact Bool.false_ne_true h
  · rintro (h' | ⟨-, hlt'⟩)
    · rw [he] at h'
      rw [str_lt_irrefl] at h'
      exact Bool.false_ne_true h'
    · omega

/-! ### Sorted journals, groups, and the walk order -/

theorem sorted_journals_nodup (arts : List Article) : (sorted_journals arts).Nodup :=
  ((List.perm_insertionSort _ _).nodup_iff).mpr (List.nodup_dedup _)

theorem mem_sorted_journals {arts : List Article} {j : String} :
    j ∈ sorted_journals arts ↔ j ∈ arts.map Article.journal := by
  rw [sorted_journals]
  rw [(List.perm_insertionSort _ _).mem_iff]
  exact List.mem_dedup

theorem sorted_journals_pairwise (arts : List Article) :
    (sorted_journals arts).Pairwise (fun a b => str_lt a b = true) := by
  have hs : (sorted_journals arts).Pairwise (fun a b => str_le a b = true) :=
    List.sorted_insertionSort _ _
  have hn : (sorted_journals arts).Pairwise (fun a b => a ≠ b) := sorted_journals_nodup arts
  exact (hs.and hn).imp fun h => str_lt_of_le_of_ne h.1 h.2

theorem mem_journal_groups {arts : List Article} {j : String} {p : Nat × Article}
    (h : p ∈ journal_groups arts j) : p ∈ arts.enum ∧ p.2.journal = j := by
  have h' := List.mem_filter.mp h
  exact ⟨h'.1, by simpa using h'.2⟩

theorem enum_pairwise_fst (l : List Article) :
    l.enum.Pairwise (fun p q => p.1 < q.1) := by
  have h := List.pairwise_lt_range l.length
  rw [← List.enum_map_fst l] at h
  exact List.pairwise_map.mp h

theorem journal_groups_pairwise (arts : List Article) (j : String) :
    (journal_groups arts j).Pairwise before_in_render := by
  have h := (enum_pairwise_fst arts).filter (fun p => p.2.journal == j)
  refine List.Pairwise.imp_of_mem ?_ h
  intro p q hp hq hlt
  right
  refine ⟨?_, hlt⟩
  rw [(mem_journal_groups hp).2, (mem_journal_groups hq).2]

theorem render_order_pairwise (arts : List Article) :
    (render_order arts).Pairwise before_in_render := by
  rw [render_order, List.pairwise_flatten]
  constructor
  · intro l hl
    rcases List.mem_map.mp hl with ⟨j, hj, rfl⟩
    exact journal_groups_pairwise arts j
  · rw [List.pairwise_map]
    refine (sorted_journals_pairwise arts).imp ?_
    intro j₁ j₂ hlt x hx y hy
    left
    rw [(mem_journal_groups hx).2, (mem_journal_groups hy).2]
    exact hlt

theorem flatten_filter_perm :
    ∀ (ks : List String) (l : List (Nat × Article)), ks.Nodup →
      (∀ p ∈ l, p.2.journal ∈ ks) →
      ((ks.map fun j => l.filter fun p => p.2.journal == j).flatten).Perm l := by
  intro ks
  induction ks with
  | nil =>
    intro l _ hcov
    have hl : l = [] := List.eq_nil_iff_forall_not_mem.mpr fun p hp => by
      simpa using hcov p hp
    rw [hl]
    exact List.Perm.refl _
  | cons k t ih =>
    intro l hnd hcov
    rw [List.map_cons, List.flatten_cons]
    have hsub : (t.map fun j => l.filter fun p => p.2.journal == j)
        = t.map fun j =>
            (l.filter fun p => !(p.2.journal == k)).filter fun p => p.2.journal == j := by
      apply List.map_congr_left
      intro j hj
      have hjk : j ≠ k := by
        intro e
        subst e
        exact (List.nodup_cons.mp hnd).1 hj
      rw [List.filter_filter]
      apply List.filter_congr
      intro p _
      by_cases hpj : (p.2.journal == j) = true
      · have hpj' : p.2.journal = j := by simpa using hpj
        have hk : (p.2.journal == k) = false := by simp [hpj', hjk]
        simp [hpj, hk]
      · simp only [Bool.not_eq_true] at hpj
        simp [hpj]
    rw [hsub]
    have hrest := ih (l.filter fun p => !(p.2.journal == k)) (List.Nodup.of_cons hnd) ?_
    · exact (List.Perm.append_left (l.filter fun p => p.2.journal == k) hrest).trans
        (List.filter_append_perm _ l)
    · intro p hp
      have h1 := (List.mem_filter.mp hp).1
      have h2 := (List.mem_filter.mp hp).2
      rcases List.mem_cons.mp (hcov p h1) with he | ht
      · exfalso
        rw [he] at h2
        simp at h2
      · exact ht

theorem render_order_perm (arts : List Article) :
    (render_order arts).Perm arts.enum := by
  rw [render_order]
  simp only [journal_groups]
  apply flatten_filter_perm _ _ (sorted_journals_nodup arts)
  intro p hp
  rw [mem_sorted_journals]
  rcases p with ⟨i, x⟩
  have hx := List.mem_enum hp
  refine List.mem_map.mpr ⟨x, ?_, rfl⟩
  rw [hx.2]
  exact List.getElem_mem hx.1

theorem render_order_fst_nodup (arts : List Article) :
    ((render_order arts).map Prod.fst).Nodup := by
  have hperm := (render_order_perm arts).map Prod.fst
  rw [hperm.nodup_iff, List.enum_map_fst]
  exact List.nodup_range _

/-! ### Positions, indices, and the display-index characterization -/

theorem assign_indices_lookup :
    ∀ (l : List (Nat × Article)), (l.map Prod.fst).Nodup →
      ∀ (n k : Nat) (h : k < l.length),
        (assign_indices n l).lookup (l.get ⟨k, h⟩).1 = some (n + k) := by
  intro l
  induction l with
  | nil =>
    intro _ n k h
    exact absurd h (by simp)
  | cons p rest ih =>
    intro hnd n k h
    have hnd' : p.1 ∉ rest.map Prod.fst ∧ (rest.map Prod.fst).Nodup := by
      rw [List.map_cons] at hnd
      exact List.nodup_cons.mp hnd
    cases k with
    | zero =>
      rw [assign_indices, List.lookup_cons]
      simp
    | succ m =>
      have hm : m < rest.length := by simpa using h
      rw [assign_indices, List.get_cons_succ, List.lookup_cons]
      have hne : ((rest.get ⟨m, hm⟩).1 == p.1) = false := by
        have hmem : (rest.get ⟨m, hm⟩).1 ∈ rest.map Prod.fst :=
          List.mem_map.mpr ⟨rest.get ⟨m, hm⟩, List.get_mem rest m hm, rfl⟩
        have : (rest.get ⟨m, hm⟩).1 ≠ p.1 := by
          intro e
          rw [e] at hmem
          exact hnd'.1 hmem
        simpa using this
      rw [hne]
      rw [ih hnd'.2 (n + 1) m hm]
      have harr : n + 1 + m = n + (m + 1) := by omega
      rw [harr]

theorem new_index_get (arts : List Article) (k : Nat)
    (h : k < (render_order arts).length) :
    new_index arts ((render_order arts).get ⟨k, h⟩).1 = some k := by
  have := assign_indices_lookup (render_order arts) (render_order_fst_nodup arts) 0 k h
  rw [new_index, article_index_map]
  simpa using this

theorem countP_before_get :
    ∀ (l : List (Nat × Article)), l.Pairwise before_in_render →
      ∀ (k : Nat) (h : k < l.length),
        l.countP (fun q => decide (before_in_render q (l.get ⟨k, h⟩))) = k := by
  intro l
  induction l with
  | nil =>
    intro _ k h
    exact absurd h (by simp)
  | cons p rest ih =>
    intro hpw k h
    have hhead := (List.pairwise_cons.mp hpw).1
    have htail := (List.pairwise_cons.mp hpw).2
    cases k with
    | zero =>
      have hzero : ∀ q ∈ p :: rest, ¬(before_in_render q p) := by
        intro q hq
        rcases List.mem_cons.mp hq with he | ht
        · subst he
          exact before_irrefl q
        · exact before_asymm (hhead q ht)
      have : (p :: rest).countP (fun q => decide (before_in_render q p)) = 0 :=
        List.countP_eq_zero.mpr fun q hq => by
          simpa using hzero q hq
      simpa using this
    | succ m =>
      have hm : m < rest.length := by simpa using h
      rw [List.get_cons_succ, List.countP_cons]
      have hx : before_in_render p (rest.get ⟨m, hm⟩) :=
        hhead (rest.get ⟨m, hm⟩) (List.get_mem rest m hm)
      rw [ih htail m hm]
      simp only [List.get_eq_getElem] at hx
      simp [hx]

/-- C1: the renderer assigns every article a dense 1-based display index in
alphabetically-sorted journal order, preserving per-journal relative order and
independent of fetch order. Formally: the dense indices handed out by the
assignment loop are a permutation of `0..n-1`, and the index of article `i`
equals the number of articles whose journal is alphabetically smaller, plus
the number of earlier articles of the same journal (so the 1-based display
value `new_index + 1` used for the `article{N}` anchors and the numeral badge
is exactly the rank in sorted-journal order). -/
theorem C1_display_index (arts : List Article) :
    ((render_order arts).map Prod.fst).Perm (List.range arts.length)
    ∧ ∀ (i : Nat) (h : i < arts.length),
        new_index arts i
          = some (arts.enum.countP fun q =>
              decide (before_in_render q (i, arts.get ⟨i, h⟩))) := by
  constructor
  · have h := (render_order_perm arts).map Prod.fst
    rwa [List.enum_map_fst] at h
  · intro i h
    have hmem : (i, arts.get ⟨i, h⟩) ∈ render_order arts := by
      apply (render_order_perm arts).mem_iff.mpr
      have he : arts.enum.get ⟨i, by simpa using h⟩ = (i, arts.get ⟨i, h⟩) := by
        simp [List.get_eq_getElem, List.getElem_enum]
      rw [← he]
      exact List.get_mem _ _ _
    rcases List.mem_iff_get.mp hmem with ⟨⟨k, hk⟩, hget⟩
    have hpos := new_index_get arts k hk
    rw [hget] at hpos
    have hcount := countP_before_get (render_order arts) (render_order_pairwise arts) k hk
    rw [hget] at hcount
    have hperm := (render_order_perm arts).countP_eq
      (fun q => decide (before_in_render q (i, arts.get ⟨i, h⟩)))
    simp only at hpos
    rw [hpos, ← hperm, hcount]

/-- Witness for C1: the claim's example. Articles fetched in order
`[JournalB-article, JournalA-article]` get display indices 2 and 1: the
dense index of the JournalB article (original position 0) is 1 and that of
the JournalA article (original position 1) is 0. -/
theorem C1_display_index_witness :
    new_index [⟨"JournalB", "b1", "10", none, none⟩,
               ⟨"JournalA", "a1", "11", none, none⟩] 0 = some 1
    ∧ new_index [⟨"JournalB", "b1", "10", none, none⟩,
                 ⟨"JournalA", "a1", "11", none, none⟩] 1 = some 0 := by
  constructor
  · have h := (C1_display_index [⟨"JournalB", "b1", "10", none, none⟩,
      ⟨"JournalA", "a1", "11", none, none⟩]).2 0 (by decide)
    rw [h]
    decide
  · have h := (C1_display_index [⟨"JournalB", "b1", "10", none, none⟩,
      ⟨"JournalA", "a1", "11", none, none⟩]).2 1 (by decide)
    rw [h]
    decide

/-! ### C2: anchors -/

theorem body_anchor_names_eq (arts : List Article) :
    body_anchor_names arts = (render_order arts).map fun p => anchor_name arts p.1 := by
  rw [body_anchor_names, render_order, List.map_flatten, List.map_map]
  congr 1
  apply List.map_congr_left
  intro j _
  simp only [Function.comp_apply]
  by_cases h : journal_groups arts j = []
  · rw [if_pos h, h, List.map_nil]
  · rw [if_neg h]

theorem body_anchor_names_range (arts : List Article) :
    body_anchor_names arts
      = (List.range (render_order arts).length).map fun k => "article" ++ nat_str (k + 1) := by
  rw [body_anchor_names_eq]
  apply List.ext_get
  · simp
  · intro n h₁ h₂
    have hn : n < (render_order arts).length := by simpa using h₁
    have hpos := new_index_get arts n hn
    simp only [List.get_eq_getElem, List.getElem_map, List.getElem_range]
    rw [anchor_name]
    simp only [List.get_eq_getElem] at hpos
    rw [hpos]
    rfl

theorem body_anchor_names_nodup (arts : List Article) :
    (body_anchor_names arts).Nodup := by
  rw [body_anchor_names_range]
  refine List.Nodup.map_on ?_ (List.nodup_range _)
  intro x _ y _ he
  have hs : nat_str (x + 1) = nat_str (y + 1) := by
    have hd := congrArg String.data he
    rw [String.data_append, String.data_append] at hd
    exact congrArg String.mk (List.append_cancel_left hd)
  have := nat_str_inj hs
  omega

/-- C2: the table of contents and the body derive the same `article{N}`
anchor identifier for each article (the TOC emits `href="#article{N}"`, the
body emits `<a name="article{N}" id="article{N}">`), and every TOC link
target occurs exactly once among the body's anchors. -/
theorem C2_anchor_round_trip (arts : List Article) :
    toc_link_targets arts = body_anchor_names arts
    ∧ ∀ t ∈ toc_link_targets arts, (body_anchor_names arts).count t = 1 := by
  refine ⟨rfl, ?_⟩
  intro t ht
  exact List.count_eq_one_of_mem (body_anchor_names_nodup arts) ht

/-- Witness for C2: two journals fetched out of alphabetical order; the body
anchors are `article1`, `article2`, each hit exactly once by a TOC link. -/
theorem C2_anchor_round_trip_witness :
    (body_anchor_names [⟨"JournalB", "b1", "10", none, none⟩,
        ⟨"JournalA", "a1", "11", none, none⟩]).count "article1" = 1
    ∧ (body_anchor_names [⟨"JournalB", "b1", "10", none, none⟩,
        ⟨"JournalA", "a1", "11", none, none⟩]).count "article2" = 1 := by
  constructor
  · exact (C2_anchor_round_trip [⟨"JournalB", "b1", "10", none, none⟩,
      ⟨"JournalA", "a1", "11", none, none⟩]).2 "article1" (by decide)
  · exact (C2_anchor_round_trip [⟨"JournalB", "b1", "10", none, none⟩,
      ⟨"JournalA", "a1", "11", none, none⟩]).2 "article2" (by decide)

end PJU
